import Mathlib

/-!
# Verification of the spla-schedule voting/confirmation/export core

Shallow embedding of the core logic of the spla-schedule repository
(`src/src/App.tsx` and its earlier local-only variant
`src/unnamed/part_000`): the vote state machine, event creation /
single-vote toggling / deletion on the event collection, the derived
`submittedMap` and `confirmed` views, and the `.ics` calendar-file
exporter.  JS `Record<Member, Vote>` objects are embedded as
association lists so that the key-set invariant is a real statement;
JS epoch-millisecond instants are embedded as `Int`.
-/

namespace SplaSchedule

/-- The fixed member set (`const members = ["Teru", "Rino", "Shunya", "Yaan"]`). -/
inductive Member where
  | Teru
  | Rino
  | Shunya
  | Yaan
deriving DecidableEq, Repr

/-- `const members` as the list the source iterates over, in source order. -/
def members : List Member := [.Teru, .Rino, .Shunya, .Yaan]

/-- `type Vote = "no" | "if" | "yes"` (the spec calls the middle state `maybe`). -/
inductive Vote where
  | no
  | «if»
  | yes
deriving DecidableEq, Repr

/-- `const voteCycle: Vote[] = ["no", "if", "yes"]`. -/
def voteCycle : List Vote := [.no, .«if», .yes]

/-- JS `Array.prototype.indexOf` on `voteCycle`: `-1` when the argument is
absent; `none` stands for the JS `undefined` read of a missing votes key,
which is never an element of `voteCycle`. -/
def jsIndexOf (xs : List Vote) : Option Vote → Int
  | none => -1
  | some v => if v ∈ xs then (xs.indexOf v : Int) else -1

/-- `voteCycle[(voteCycle.indexOf(current) + 1) % voteCycle.length]`, the
next-vote computation inside `toggleVote` (App.tsx line 132 / part_000
line 47), on the possibly-missing current vote. -/
def nextVoteOf (current : Option Vote) : Vote :=
  voteCycle.getD (Int.toNat (Int.emod (jsIndexOf voteCycle current + 1) (voteCycle.length : Int))) .no

/-- The vote-cycle step function on a present vote. -/
def nextVote (v : Vote) : Vote := nextVoteOf (some v)

/-- An event (`type Schedule`).  `id` is opaque (uuid / `Date.now()`), only
compared for equality, embedded as `Nat`; `starts_at` is the epoch-millisecond
instant of the chosen start time; `votes` embeds the JS object
`Record<Member, Vote>` as an association list in key insertion order. -/
structure Schedule where
  id : Nat
  starts_at : Int
  title : String
  votes : List (Member × Vote)
deriving DecidableEq, Repr

/-- Reading `votes[m]` from a JS object: value at the key, `none` for a
missing key. -/
def lookupVote : List (Member × Vote) → Member → Option Vote
  | [], _ => none
  | (k, w) :: rest, m => if k = m then some w else lookupVote rest m

/-- The JS object spread `{ ...votes, [m]: v }`: if the key is present its
value is replaced in place (key order kept), otherwise the key is appended. -/
def setVote : List (Member × Vote) → Member → Vote → List (Member × Vote)
  | [], m, v => [(m, v)]
  | (k, w) :: rest, m, v =>
    if k = m then (k, v) :: rest else (k, w) :: setVote rest m v

/-- Model of the JS platform builtin `String.prototype.trim`: strip leading
and trailing whitespace. -/
def jsTrim (s : String) : String :=
  String.mk (((s.data.dropWhile Char.isWhitespace).reverse.dropWhile Char.isWhitespace).reverse)

/-- `Object.fromEntries(members.map((m) => [m, "no"]))`: the vote mapping of
a freshly created event. -/
def emptyVotes : List (Member × Vote) := members.map (fun m => (m, Vote.no))

/-- `addSchedule` (part_000 lines 29-40; App.tsx lines 114-128 inserts the
same row and the INSERT notification appends it): trim the title, reject an
empty result, otherwise append one event with all votes defaulted to `no`.
`now` is the creation identifier (`Date.now()` / the server-assigned id). -/
def addSchedule (schedules : List Schedule) (now : Nat) (date : Int) (title : String) :
    List Schedule :=
  let t := jsTrim title
  if t = "" then schedules
  else schedules ++ [{ id := now, starts_at := date, title := t, votes := emptyVotes }]

/-- The per-event body of `toggleVote`'s `prev.map` (part_000 lines 42-51;
App.tsx computes the same `nextVotes` row and the UPDATE notification
replaces the row by id): an event with another id is returned unchanged,
otherwise the one member's vote is advanced along the cycle. -/
def toggleOne (scheduleId : Nat) (m : Member) (s : Schedule) : Schedule :=
  if s.id ≠ scheduleId then s
  else { s with votes := setVote s.votes m (nextVoteOf (lookupVote s.votes m)) }

/-- `toggleVote`: `prev.map ((s) => ...)` over the collection. -/
def toggleVote (schedules : List Schedule) (scheduleId : Nat) (m : Member) : List Schedule :=
  schedules.map (toggleOne scheduleId m)

/-- The DELETE handler / `removeSchedule` effect (App.tsx lines 98-102):
`prev.filter((x) => x.id !== oldRow.id)`. -/
def removeSchedule (schedules : List Schedule) (scheduleId : Nat) : List Schedule :=
  schedules.filter (fun x => x.id ≠ scheduleId)

/-- The condition `s.votes?.[k] && s.votes[k] !== "no"` (App.tsx line 154):
the member's vote exists and is not `no`. -/
def hasNonNoVote (s : Schedule) (k : Member) : Bool :=
  match lookupVote s.votes k with
  | some v => v ≠ Vote.no
  | none => false

/-- The body of `submittedMap`'s outer loop (App.tsx lines 152-156): for each
member `k`, if the event holds a non-`no` vote for `k`, mark `k` responded. -/
def markSchedule (acc : Member → Bool) (s : Schedule) : Member → Bool :=
  members.foldl (fun acc k =>
    if hasNonNoVote s k then (fun m => if m = k then true else acc m) else acc) acc

/-- `submittedMap` (App.tsx lines 148-158): a map starting all-`false`,
updated by the double loop over events and members. -/
def submittedMap (schedules : List Schedule) : Member → Bool :=
  schedules.foldl markSchedule (fun _ => false)

/-- `members.every((m) => s.votes?.[m] === "yes")` (App.tsx line 160). -/
def allYes (s : Schedule) : Bool :=
  members.all (fun m => lookupVote s.votes m = some Vote.yes)

/-- `confirmed` (App.tsx lines 159-162): the all-`yes` events, filtered in
collection order. -/
def confirmed (schedules : List Schedule) : List Schedule :=
  schedules.filter allYes

/-- The mutations the UI can apply to the event collection: creation, a
single-member vote toggle, deletion.  No other mutation path exists. -/
inductive Op where
  | add (now : Nat) (date : Int) (title : String)
  | toggle (scheduleId : Nat) (m : Member)
  | remove (scheduleId : Nat)

/-- Apply one mutation to the collection. -/
def applyOp (schedules : List Schedule) : Op → List Schedule
  | .add now date title => addSchedule schedules now date title
  | .toggle scheduleId m => toggleVote schedules scheduleId m
  | .remove scheduleId => removeSchedule schedules scheduleId

/-- Apply a sequence of mutations in order. -/
def applyOps (schedules : List Schedule) (ops : List Op) : List Schedule :=
  ops.foldl applyOp schedules

/-- The key set of an event's vote mapping is exactly the full member set. -/
def votesComplete (s : Schedule) : Prop :=
  s.votes.map Prod.fst = members

/-! ## The `.ics` exporter

`exportICS` formats each confirmed event's start instant with
`new Date(...).toISOString().replace(/[-:]/g, "").split(".")[0] + "Z"`.
`Date.toISOString` is a JS platform builtin; it is modelled below as the
`YYYY-MM-DDTHH:MM:SS.sssZ` rendering of the UTC civil time of the epoch
instant (proleptic Gregorian calendar, as ECMA-262 specifies), for years
in `0..9999`. -/

/-- The character of a decimal digit `d < 10`. -/
def digitChar (d : Nat) : Char := Char.ofNat (48 + d)

/-- Decimal digits of `n`, most significant first, in front of `acc`;
`fuel`-bounded recursion with `fuel > n` sufficient. -/
def natCharsAux : Nat → Nat → List Char → List Char
  | 0, _, acc => acc
  | fuel + 1, n, acc =>
    if n < 10 then digitChar (n % 10) :: acc
    else natCharsAux fuel (n / 10) (digitChar (n % 10) :: acc)

/-- Decimal rendering of `n` as characters. -/
def natChars (n : Nat) : List Char := natCharsAux (n + 1) n []

/-- Zero-pad a character list on the left to width `w`. -/
def padChars (w : Nat) (cs : List Char) : List Char :=
  List.replicate (w - cs.length) '0' ++ cs

/-- `n` rendered in decimal, zero-padded to width `w` (the fixed-width
fields of `toISOString`). -/
def padNum (w n : Nat) : List Char := padChars w (natChars n)

/-- A character untouched by the exporter's string surgery: neither a dash
nor a colon (both dropped by the `replace`) nor a dot (where the `split`
stops). -/
def stampSafe (c : Char) : Bool := c ≠ '-' && c ≠ ':' && c ≠ '.'

/-- UTC civil date of day `z` counted from 1970-01-01 (proleptic Gregorian,
Euclidean division throughout). -/
structure CivilDate where
  year : Int
  month : Int
  day : Int

/-- `civilFromDays` (the standard era/day-of-era decomposition used to model
the JS `Date` UTC getters). -/
def civilFromDays (z : Int) : CivilDate :=
  let zz := z + 719468
  let era := Int.ediv zz 146097
  let doe := zz - era * 146097
  let yoe := Int.ediv (doe - Int.ediv doe 1460 + Int.ediv doe 36524 - Int.ediv doe 146096) 365
  let y := yoe + era * 400
  let doy := doe - (365 * yoe + Int.ediv yoe 4 - Int.ediv yoe 100)
  let mp := Int.ediv (5 * doy + 2) 153
  let d := doy - Int.ediv (153 * mp + 2) 5 + 1
  let mo := mp + (if mp < 10 then 3 else -9)
  { year := y + (if mo ≤ 2 then 1 else 0), month := mo, day := d }

/-- Whole days since the epoch of the instant `ms`. -/
def isoDays (ms : Int) : Int := Int.ediv ms 86400000

/-- Milliseconds into the UTC day of the instant `ms`. -/
def isoMsOfDay (ms : Int) : Nat := (Int.emod ms 86400000).toNat

/-- The characters of the model of `Date.toISOString` on the epoch-millisecond
instant `ms`: `YYYY-MM-DDTHH:MM:SS.sssZ` in UTC. -/
def toISOChars (ms : Int) : List Char :=
  padNum 4 (civilFromDays (isoDays ms)).year.toNat ++ ['-'] ++
  padNum 2 (civilFromDays (isoDays ms)).month.toNat ++ ['-'] ++
  padNum 2 (civilFromDays (isoDays ms)).day.toNat ++ ['T'] ++
  padNum 2 (isoMsOfDay ms / 3600000) ++ [':'] ++
  padNum 2 (isoMsOfDay ms / 60000 % 60) ++ [':'] ++
  padNum 2 (isoMsOfDay ms / 1000 % 60) ++ ['.'] ++
  padNum 3 (isoMsOfDay ms % 1000) ++ ['Z']

/-- Model of the JS platform builtin `Date.prototype.toISOString`. -/
def toISOString (ms : Int) : String := String.mk (toISOChars ms)

/-- `.replace(/[-:]/g, "")`: drop every dash and colon. -/
def stripDashColon (s : String) : String :=
  String.mk (s.data.filter (fun c => c ≠ '-' ∧ c ≠ ':'))

/-- `.split(".")[0]`: the prefix before the first dot (the whole string when
no dot occurs). -/
def beforeDot (s : String) : String :=
  String.mk (s.data.takeWhile (fun c => c ≠ '.'))

/-- The exporter's calendar stamp (App.tsx lines 182-190):
`toISOString().replace(/[-:]/g, "").split(".")[0] + "Z"`. -/
def icsStamp (ms : Int) : String :=
  beforeDot (stripDashColon (toISOString ms)) ++ "Z"

/-- The stamp as the spec words it: `YYYYMMDDTHHMMSSZ`, the UTC fields with
no punctuation and a trailing literal `Z`.  Stated from the spec, to be
compared with the source-derived `icsStamp`. -/
def specStamp (ms : Int) : String :=
  String.mk (padNum 4 (civilFromDays (isoDays ms)).year.toNat ++
    padNum 2 (civilFromDays (isoDays ms)).month.toNat ++
    padNum 2 (civilFromDays (isoDays ms)).day.toNat ++ ['T'] ++
    padNum 2 (isoMsOfDay ms / 3600000) ++
    padNum 2 (isoMsOfDay ms / 60000 % 60) ++
    padNum 2 (isoMsOfDay ms / 1000 % 60) ++ ['Z'])

/-- One `VEVENT` block of the export (App.tsx lines 191-197): the five lines
joined by newlines, the title embedded verbatim, the end instant the start
plus `2 * 60 * 60 * 1000` milliseconds. -/
def icsEventBlock (s : Schedule) : String :=
  String.intercalate "\n"
    ["BEGIN:VEVENT",
     "SUMMARY:" ++ s.title,
     "DTSTART:" ++ icsStamp s.starts_at,
     "DTEND:" ++ icsStamp (s.starts_at + 2 * 60 * 60 * 1000),
     "END:VEVENT"]

/-- The whole `.ics` text (App.tsx line 201): the event blocks joined by
newlines, wrapped in the `VCALENDAR` container with its fixed version. -/
def icsContent (conf : List Schedule) : String :=
  "BEGIN:VCALENDAR\nVERSION:2.0\n" ++ String.intercalate "\n" (conf.map icsEventBlock) ++
    "\nEND:VCALENDAR"

/-- What `exportICS` does: the (unchanged) collection, the alerts raised, and
the offered download (fixed filename, content), if any. -/
structure ExportOutcome where
  state : List Schedule
  alerts : List String
  file : Option (String × String)
deriving DecidableEq

/-- A fixture: one event, every vote `yes` (the spec's example export
scenario with title `21:00集合`). -/
def yesSchedule : Schedule :=
  { id := 7, starts_at := 0, title := "21:00集合",
    votes := members.map (fun m => (m, Vote.yes)) }

/-- `exportICS` (App.tsx lines 175-209): when no event is confirmed, alert
once and generate nothing; otherwise offer the `.ics` file under the fixed
filename.  The collection itself is never mutated. -/
def exportICS (schedules : List Schedule) : ExportOutcome :=
  let conf := confirmed schedules
  if conf.length = 0 then
    { state := schedules, alerts := ["確定した予定がありません"], file := none }
  else
    { state := schedules, alerts := [],
      file := some ("splatoon-schedule.ics", icsContent conf) }

/-! ## Vote mapping lemmas -/

theorem lookupVote_setVote_same (votes : List (Member × Vote)) (m : Member) (v : Vote) :
    lookupVote (setVote votes m v) m = some v := by
  induction votes with
  | nil => simp [setVote, lookupVote]
  | cons p rest ih =>
    obtain ⟨k, w⟩ := p
    by_cases hk : k = m <;> simp [setVote, lookupVote, hk, ih]

theorem lookupVote_setVote_other (votes : List (Member × Vote)) (m m' : Member) (v : Vote)
    (h : m' ≠ m) :
    lookupVote (setVote votes m v) m' = lookupVote votes m' := by
  have hmm : m ≠ m' := fun hh => h hh.symm
  induction votes with
  | nil => simp [setVote, lookupVote, hmm]
  | cons p rest ih =>
    obtain ⟨k, w⟩ := p
    by_cases hk : k = m
    · subst hk
      have hk' : k ≠ m' := hmm
      simp [setVote, lookupVote, hk']
    · by_cases hk' : k = m' <;> simp [setVote, lookupVote, hk, hk', ih, h]

theorem keys_setVote (votes : List (Member × Vote)) (m : Member) (v : Vote)
    (h : m ∈ votes.map Prod.fst) :
    (setVote votes m v).map Prod.fst = votes.map Prod.fst := by
  induction votes with
  | nil => simp at h
  | cons p rest ih =>
    obtain ⟨k, w⟩ := p
    by_cases hk : k = m
    · simp [setVote, hk]
    · have h' : m ∈ rest.map Prod.fst := by
        simp only [List.map_cons] at h
        rcases List.mem_cons.mp h with h0 | h0
        · exact absurd h0.symm hk
        · exact h0
      simp [setVote, hk, ih h']

/-! ## Claim C2 -/

/-- Claim C2: the vote-cycle step function advances exactly one position
along the fixed cycle `no → if → yes → no` (the spec's `maybe` is the
source's `if`), and applying it three times returns the argument. -/
theorem vote_cycle_step_and_period (v : Vote) :
    nextVote .no = .«if» ∧ nextVote .«if» = .yes ∧ nextVote .yes = .no ∧
    nextVote (nextVote (nextVote v)) = v := by
  refine ⟨rfl, rfl, rfl, ?_⟩
  cases v <;> rfl

/-! ## Claim C6 -/

/-- Claim C6: creating an event whose title trims to empty is rejected and
leaves the collection unchanged; a non-empty trimmed title appends exactly
one event whose vote mapping sends every member to `no`. -/
theorem add_schedule_title_guard (schedules : List Schedule) (now : Nat) (date : Int)
    (title : String) :
    (jsTrim title = "" → addSchedule schedules now date title = schedules) ∧
    (jsTrim title ≠ "" → addSchedule schedules now date title =
      schedules ++ [{ id := now, starts_at := date, title := jsTrim title, votes := emptyVotes }]) ∧
    (∀ m : Member, lookupVote emptyVotes m = some Vote.no) := by
  refine ⟨fun h => ?_, fun h => ?_, fun m => ?_⟩
  · simp [addSchedule, h]
  · simp [addSchedule, h]
  · cases m <;> rfl

/-- Witness for C6 at concrete inputs: a whitespace title is rejected, a
padded title is trimmed and appended. -/
theorem add_schedule_title_guard_witness :
    addSchedule [] 1 0 " " = [] ∧
    addSchedule [] 1 0 " x " =
      [{ id := 1, starts_at := 0, title := jsTrim " x ", votes := emptyVotes }] := by
  constructor
  · exact (add_schedule_title_guard [] 1 0 " ").1 (by decide)
  · exact (add_schedule_title_guard [] 1 0 " x ").2.1 (by decide)

/-! ## Claim C9 -/

/-- Claim C9: deleting by id keeps the collection order (a sublist of the
original) and retains exactly the events whose id differs, each one — vote
mapping included — the very value it was. -/
theorem remove_schedule_exact (schedules : List Schedule) (scheduleId : Nat) :
    (removeSchedule schedules scheduleId).Sublist schedules ∧
    (∀ s : Schedule, s ∈ removeSchedule schedules scheduleId ↔
      s ∈ schedules ∧ s.id ≠ scheduleId) := by
  refine ⟨List.filter_sublist _, fun s => ?_⟩
  simp [removeSchedule]

/-! ## Claim C10 -/

/-- Claim C10: toggling a vote or deleting with an id no event carries
leaves the collection exactly unchanged. -/
theorem unknown_id_noop (schedules : List Schedule) (scheduleId : Nat) (m : Member)
    (h : ∀ s ∈ schedules, s.id ≠ scheduleId) :
    toggleVote schedules scheduleId m = schedules ∧
    removeSchedule schedules scheduleId = schedules := by
  constructor
  · unfold toggleVote
    conv_rhs => rw [← List.map_id schedules]
    apply List.map_congr_left
    intro s hs
    simp [toggleOne, h s hs]
  · unfold removeSchedule
    rw [List.filter_eq_self]
    intro s hs
    simp [h s hs]

/-- Witness for C10: a singleton collection with id 2 is untouched by a
toggle and a delete aimed at id 1. -/
theorem unknown_id_noop_witness :
    toggleVote [{ id := 2, starts_at := 0, title := "x", votes := emptyVotes }] 1 .Teru
        = [{ id := 2, starts_at := 0, title := "x", votes := emptyVotes }] ∧
    removeSchedule [{ id := 2, starts_at := 0, title := "x", votes := emptyVotes }] 1
        = [{ id := 2, starts_at := 0, title := "x", votes := emptyVotes }] :=
  unknown_id_noop [{ id := 2, starts_at := 0, title := "x", votes := emptyVotes }] 1 .Teru
    (by decide)

/-! ## Claim C1 -/

/-- Claim C1: the confirmed-events sequence is exactly the order-preserving
filter of the collection to the events in which every member's vote equals
`yes` — a subsequence of the input, empty on the empty collection. -/
theorem confirmed_is_yes_filter (schedules : List Schedule) :
    confirmed schedules =
      schedules.filter (fun s => decide (∀ m ∈ members, lookupVote s.votes m = some Vote.yes)) ∧
    (confirmed schedules).Sublist schedules ∧
    confirmed ([] : List Schedule) = [] := by
  refine ⟨?_, List.filter_sublist _, rfl⟩
  unfold confirmed
  apply List.filter_congr
  intro s _
  by_cases h : ∀ m ∈ members, lookupVote s.votes m = some Vote.yes
  · rw [decide_eq_true h]
    simp only [allYes, List.all_eq_true, decide_eq_true_eq]
    exact fun m hm => h m hm
  · rw [decide_eq_false h]
    rw [← Bool.not_eq_true]
    simp only [allYes, List.all_eq_true, decide_eq_true_eq]
    exact h

/-! ## Claim C4 -/

theorem foldl_mark_apply (s : Schedule) (l : List Member) (acc : Member → Bool) (m : Member) :
    (l.foldl (fun acc k =>
        if hasNonNoVote s k then (fun m' => if m' = k then true else acc m') else acc) acc) m
      = (acc m || l.any (fun k => decide (m = k) && hasNonNoVote s k)) := by
  induction l generalizing acc with
  | nil => simp
  | cons k rest ih =>
    rw [List.foldl_cons, ih]
    rcases hv : hasNonNoVote s k with _ | _ <;> by_cases hm : m = k <;>
      simp [hv, hm, Bool.or_assoc]

theorem markSchedule_apply (acc : Member → Bool) (s : Schedule) (m : Member) :
    markSchedule acc s m = (acc m || hasNonNoVote s m) := by
  rw [markSchedule, foldl_mark_apply]
  congr 1
  cases m <;> simp [members]

theorem submittedMap_eq_any (schedules : List Schedule) (m : Member) :
    submittedMap schedules m = schedules.any (fun s => hasNonNoVote s m) := by
  have gen : ∀ (l : List Schedule) (acc : Member → Bool),
      (l.foldl markSchedule acc) m = (acc m || l.any (fun s => hasNonNoVote s m)) := by
    intro l
    induction l with
    | nil => intro acc; simp
    | cons s rest ih =>
      intro acc
      rw [List.foldl_cons, ih, markSchedule_apply]
      simp [Bool.or_assoc]
  simpa using gen schedules (fun _ => false)

/-- Claim C4: a member's responded flag is true iff some event carries a
non-`no` vote for that member; on the empty collection it is false. -/
theorem responded_iff_nonno_vote (schedules : List Schedule) (m : Member) :
    (submittedMap schedules m = true ↔
      ∃ s ∈ schedules, ∃ v, lookupVote s.votes m = some v ∧ v ≠ Vote.no) ∧
    submittedMap [] m = false := by
  refine ⟨?_, rfl⟩
  rw [submittedMap_eq_any, List.any_eq_true]
  have hchar : ∀ s : Schedule,
      (hasNonNoVote s m = true) = (∃ v, lookupVote s.votes m = some v ∧ v ≠ Vote.no) := by
    intro s
    apply propext
    unfold hasNonNoVote
    rcases h : lookupVote s.votes m with _ | v <;> simp [h]
  simp only [hchar]

/-! ## Claim C3 -/

theorem votesComplete_applyOp {schedules : List Schedule} {op : Op}
    (h : ∀ s ∈ schedules, votesComplete s) :
    ∀ s ∈ applyOp schedules op, votesComplete s := by
  intro s hs
  cases op with
  | add now date title =>
    simp only [applyOp, addSchedule] at hs
    by_cases ht : jsTrim title = ""
    · rw [if_pos ht] at hs
      exact h s hs
    · rw [if_neg ht] at hs
      rcases List.mem_append.mp hs with hs | hs
      · exact h s hs
      · rcases List.mem_singleton.mp hs with rfl
        show emptyVotes.map Prod.fst = members
        decide
  | toggle scheduleId m =>
    simp only [applyOp, toggleVote] at hs
    rcases List.mem_map.mp hs with ⟨t, ht, rfl⟩
    unfold toggleOne
    by_cases hid : t.id ≠ scheduleId
    · rw [if_pos hid]
      exact h t ht
    · rw [if_neg hid]
      show (setVote t.votes m (nextVoteOf (lookupVote t.votes m))).map Prod.fst = members
      rw [keys_setVote]
      · exact h t ht
      · rw [h t ht]
        cases m <;> decide
  | remove scheduleId =>
    exact h s (List.mem_of_mem_filter hs)

theorem votesComplete_applyOps (ops : List Op) (schedules : List Schedule)
    (h : ∀ s ∈ schedules, votesComplete s) :
    ∀ s ∈ applyOps schedules ops, votesComplete s := by
  induction ops generalizing schedules with
  | nil => exact h
  | cons op rest ih =>
    simp only [applyOps, List.foldl_cons]
    exact ih (applyOp schedules op) (votesComplete_applyOp h)

/-- Claim C3: in any collection built from the empty one by creations, vote
toggles and deletions, every event's vote mapping has key set exactly the
full member set. -/
theorem votes_key_set_invariant (ops : List Op) :
    ∀ s ∈ applyOps [] ops, s.votes.map Prod.fst = members := by
  intro s hs
  exact votesComplete_applyOps ops [] (by intro s hs; cases hs) s hs

/-- Witness for C3: the event produced by one `add` followed by one `toggle`
has key set exactly the member set. -/
theorem votes_key_set_invariant_witness :
    ({ id := 5, starts_at := 0, title := jsTrim "x",
       votes := [(Member.Teru, Vote.no), (Member.Rino, Vote.«if»),
                 (Member.Shunya, Vote.no), (Member.Yaan, Vote.no)] } : Schedule).votes.map
        Prod.fst = members :=
  votes_key_set_invariant [.add 5 0 "x", .toggle 5 .Rino] _ (by decide)

/-! ## Claim C7 -/

/-- Claim C7: a vote toggle keeps the collection's length, acts elementwise,
leaves every event with a different id untouched, and on the matching event
changes nothing but the one member's vote entry: id, title, start instant
and every other member's vote are unchanged, and the toggled member's entry
becomes the cycle successor of its current vote. -/
theorem toggle_vote_frame (schedules : List Schedule) (scheduleId : Nat) (m : Member) :
    (toggleVote schedules scheduleId m).length = schedules.length ∧
    (∀ i : Nat, (toggleVote schedules scheduleId m)[i]? =
      (schedules[i]?).map (toggleOne scheduleId m)) ∧
    (∀ s : Schedule, s.id ≠ scheduleId → toggleOne scheduleId m s = s) ∧
    (∀ s : Schedule,
      (toggleOne scheduleId m s).id = s.id ∧
      (toggleOne scheduleId m s).title = s.title ∧
      (toggleOne scheduleId m s).starts_at = s.starts_at ∧
      (∀ m' : Member, m' ≠ m →
        lookupVote (toggleOne scheduleId m s).votes m' = lookupVote s.votes m')) ∧
    (∀ s : Schedule, s.id = scheduleId →
      lookupVote (toggleOne scheduleId m s).votes m =
        some (nextVoteOf (lookupVote s.votes m))) := by
  refine ⟨by simp [toggleVote], fun i => by simp [toggleVote], ?_, ?_, ?_⟩
  · intro s hid
    simp [toggleOne, hid]
  · intro s
    unfold toggleOne
    by_cases hid : s.id ≠ scheduleId
    · simp [hid]
    · refine ⟨by simp [hid], by simp [hid], by simp [hid], fun m' hm' => ?_⟩
      rw [if_neg hid]
      exact lookupVote_setVote_other s.votes m m' _ hm'
  · intro s hid
    have hid' : ¬s.id ≠ scheduleId := fun hh => hh hid
    unfold toggleOne
    rw [if_neg hid']
    exact lookupVote_setVote_same s.votes m _

/-- Witness for C7: the frame facts applied at a concrete event of another
id and at a concrete matching event. -/
theorem toggle_vote_frame_witness :
    toggleOne 1 .Teru { id := 2, starts_at := 0, title := "a", votes := emptyVotes }
      = { id := 2, starts_at := 0, title := "a", votes := emptyVotes } ∧
    lookupVote (toggleOne 3 .Teru
        { id := 3, starts_at := 0, title := "a", votes := emptyVotes }).votes .Teru
      = some (nextVoteOf (lookupVote emptyVotes .Teru)) := by
  constructor
  · exact (toggle_vote_frame [] 1 .Teru).2.2.1 _ (by decide)
  · exact (toggle_vote_frame [] 3 .Teru).2.2.2.2 _ rfl

/-! ## Claim C8 -/

/-- Claim C8: exporting with no confirmed event generates no file, raises
exactly one user-facing notice, and leaves the collection unchanged. -/
theorem export_ics_empty_guard (schedules : List Schedule)
    (h : confirmed schedules = []) :
    exportICS schedules =
      { state := schedules, alerts := ["確定した予定がありません"], file := none } := by
  simp only [exportICS, h]
  rfl

/-- Witness for C8: the empty collection exports to one notice and no file. -/
theorem export_ics_empty_guard_witness :
    exportICS [] = { state := [], alerts := ["確定した予定がありません"], file := none } :=
  export_ics_empty_guard [] rfl

/-! ## The stamp refinement for Claim C5 -/

theorem digitChar_stampSafe (d : Nat) (h : d < 10) : stampSafe (digitChar d) = true := by
  interval_cases d <;> decide

theorem natCharsAux_stampSafe (fuel : Nat) :
    ∀ (n : Nat) (acc : List Char), (∀ c ∈ acc, stampSafe c = true) →
      ∀ c ∈ natCharsAux fuel n acc, stampSafe c = true := by
  induction fuel with
  | zero =>
    intro n acc hacc c hc
    exact hacc c hc
  | succ fuel ih =>
    intro n acc hacc c hc
    simp only [natCharsAux] at hc
    by_cases h10 : n < 10
    · rw [if_pos h10] at hc
      rcases List.mem_cons.mp hc with rfl | hc
      · exact digitChar_stampSafe _ (Nat.mod_lt _ (by omega))
      · exact hacc c hc
    · rw [if_neg h10] at hc
      refine ih (n / 10) _ ?_ c hc
      intro c' hc'
      rcases List.mem_cons.mp hc' with rfl | hc'
      · exact digitChar_stampSafe _ (Nat.mod_lt _ (by omega))
      · exact hacc c' hc'

theorem natChars_stampSafe (n : Nat) : ∀ c ∈ natChars n, stampSafe c = true :=
  natCharsAux_stampSafe (n + 1) n [] (by intro c hc; cases hc)

theorem padNum_stampSafe (w n : Nat) : ∀ c ∈ padNum w n, stampSafe c = true := by
  intro c hc
  simp only [padNum, padChars] at hc
  rcases List.mem_append.mp hc with hc | hc
  · rcases List.eq_of_mem_replicate hc with rfl
    decide
  · exact natChars_stampSafe n c hc

theorem stampSafe_spell (x : Char) (h : stampSafe x = true) :
    x ≠ '-' ∧ x ≠ ':' ∧ x ≠ '.' := by
  simpa [stampSafe, and_assoc] using h

theorem filter_keep_safe (l : List Char) (hl : ∀ x ∈ l, stampSafe x = true) :
    l.filter (fun ch => ch ≠ '-' ∧ ch ≠ ':') = l := by
  refine List.filter_eq_self.mpr fun x hx => ?_
  obtain ⟨h1, h2, _⟩ := stampSafe_spell x (hl x hx)
  simp [h1, h2]

theorem takeWhile_skip_safe (l₁ l₂ : List Char) :
    (∀ x ∈ l₁, stampSafe x = true) →
      (l₁ ++ l₂).takeWhile (fun ch => ch ≠ '.') =
        l₁ ++ l₂.takeWhile (fun ch => ch ≠ '.') := by
  induction l₁ with
  | nil =>
    intro _
    simp
  | cons x rest ih =>
    intro h
    obtain ⟨_, _, h3⟩ := stampSafe_spell x (h x (List.mem_cons_self x rest))
    simp only [List.cons_append, List.takeWhile_cons]
    rw [if_pos (by simpa using h3), ih (fun y hy => h y (List.mem_cons_of_mem x hy))]

/-- The exporter's string surgery on the ISO rendering — drop the dashes and
colons, cut at the dot, put the `Z` back — yields exactly the compact
`YYYYMMDDTHHMMSSZ` concatenation of the same fields. -/
theorem strip_take_stamp (a b c d e f g : List Char)
    (ha : ∀ x ∈ a, stampSafe x = true) (hb : ∀ x ∈ b, stampSafe x = true)
    (hc : ∀ x ∈ c, stampSafe x = true) (hd : ∀ x ∈ d, stampSafe x = true)
    (he : ∀ x ∈ e, stampSafe x = true) (hf : ∀ x ∈ f, stampSafe x = true)
    (hg : ∀ x ∈ g, stampSafe x = true) :
    String.mk (((a ++ ['-'] ++ b ++ ['-'] ++ c ++ ['T'] ++ d ++ [':'] ++ e ++ [':'] ++ f
        ++ ['.'] ++ g ++ ['Z']).filter (fun ch => ch ≠ '-' ∧ ch ≠ ':')).takeWhile
          (fun ch => ch ≠ '.')) ++ "Z"
      = String.mk (a ++ b ++ c ++ ['T'] ++ d ++ e ++ f ++ ['Z']) := by
  have hT : ∀ x ∈ (['T'] : List Char), stampSafe x = true := by decide
  have f1 : List.filter (fun ch => ch ≠ '-' ∧ ch ≠ ':') ['-'] = [] := rfl
  have f2 : List.filter (fun ch => ch ≠ '-' ∧ ch ≠ ':') [':'] = [] := rfl
  have f3 : List.filter (fun ch => ch ≠ '-' ∧ ch ≠ ':') ['T'] = ['T'] := rfl
  have f4 : List.filter (fun ch => ch ≠ '-' ∧ ch ≠ ':') ['.'] = ['.'] := rfl
  have f5 : List.filter (fun ch => ch ≠ '-' ∧ ch ≠ ':') ['Z'] = ['Z'] := rfl
  have hfil : (a ++ ['-'] ++ b ++ ['-'] ++ c ++ ['T'] ++ d ++ [':'] ++ e ++ [':'] ++ f
      ++ ['.'] ++ g ++ ['Z']).filter (fun ch => ch ≠ '-' ∧ ch ≠ ':')
      = a ++ b ++ c ++ ['T'] ++ d ++ e ++ f ++ ['.'] ++ g ++ ['Z'] := by
    simp only [List.filter_append, filter_keep_safe a ha, filter_keep_safe b hb,
      filter_keep_safe c hc, filter_keep_safe d hd, filter_keep_safe e he,
      filter_keep_safe f hf, filter_keep_safe g hg, f1, f2, f3, f4, f5, List.append_nil]
  have htw : (a ++ b ++ c ++ ['T'] ++ d ++ e ++ f ++ ['.'] ++ g ++ ['Z']).takeWhile
      (fun ch => ch ≠ '.') = a ++ b ++ c ++ ['T'] ++ d ++ e ++ f := by
    simp only [List.append_assoc]
    rw [takeWhile_skip_safe a _ ha, takeWhile_skip_safe b _ hb, takeWhile_skip_safe c _ hc,
      takeWhile_skip_safe ['T'] _ hT, takeWhile_skip_safe d _ hd, takeWhile_skip_safe e _ he,
      takeWhile_skip_safe f _ hf]
    have hdot : (['.'] ++ (g ++ ['Z'])).takeWhile (fun ch => ch ≠ '.') = [] := rfl
    rw [hdot]
    simp [List.append_assoc]
  rw [hfil, htw]
  apply String.ext
  simp [String.data]

theorem data_mk (l : List Char) : (String.mk l).data = l := rfl

/-- The source-derived calendar stamp coincides with the spec's direct
`YYYYMMDDTHHMMSSZ` formatter on every instant. -/
theorem icsStamp_eq_specStamp (ms : Int) : icsStamp ms = specStamp ms := by
  unfold icsStamp beforeDot stripDashColon toISOString specStamp toISOChars
  rw [data_mk, data_mk]
  exact strip_take_stamp _ _ _ _ _ _ _
    (padNum_stampSafe _ _) (padNum_stampSafe _ _) (padNum_stampSafe _ _)
    (padNum_stampSafe _ _) (padNum_stampSafe _ _) (padNum_stampSafe _ _)
    (padNum_stampSafe _ _)

/-- Each `VEVENT` block, with its stamps written the spec's way. -/
theorem icsEventBlock_spec (s : Schedule) :
    icsEventBlock s =
      String.intercalate "\n"
        ["BEGIN:VEVENT",
         "SUMMARY:" ++ s.title,
         "DTSTART:" ++ specStamp s.starts_at,
         "DTEND:" ++ specStamp (s.starts_at + 2 * 60 * 60 * 1000),
         "END:VEVENT"] := by
  unfold icsEventBlock
  rw [icsStamp_eq_specStamp, icsStamp_eq_specStamp]

/-! ## Claim C5 -/

/-- Claim C5: with at least one confirmed event the export offers, under the
fixed filename, a `VCALENDAR` container with its fixed version line holding
one `VEVENT` block per confirmed event in order — the title embedded
verbatim, `DTSTART` the start instant as `YYYYMMDDTHHMMSSZ` (UTC, no
punctuation, trailing literal `Z`), and `DTEND` the instant exactly 2 hours
(`2 * 60 * 60 * 1000` ms) later in the same format. -/
theorem export_ics_format (schedules : List Schedule)
    (h : confirmed schedules ≠ []) :
    exportICS schedules =
      { state := schedules, alerts := [],
        file := some ("splatoon-schedule.ics",
          "BEGIN:VCALENDAR\nVERSION:2.0\n" ++
          String.intercalate "\n" ((confirmed schedules).map (fun s =>
            String.intercalate "\n"
              ["BEGIN:VEVENT",
               "SUMMARY:" ++ s.title,
               "DTSTART:" ++ specStamp s.starts_at,
               "DTEND:" ++ specStamp (s.starts_at + 2 * 60 * 60 * 1000),
               "END:VEVENT"])) ++
          "\nEND:VCALENDAR") } := by
  simp only [exportICS]
  rw [if_neg (by simpa [List.length_eq_zero] using h)]
  have hmap : (confirmed schedules).map icsEventBlock
      = (confirmed schedules).map (fun s =>
          String.intercalate "\n"
            ["BEGIN:VEVENT",
             "SUMMARY:" ++ s.title,
             "DTSTART:" ++ specStamp s.starts_at,
             "DTEND:" ++ specStamp (s.starts_at + 2 * 60 * 60 * 1000),
             "END:VEVENT"]) :=
    List.map_congr_left fun s _ => icsEventBlock_spec s
  simp only [icsContent, hmap]

/-- Witness for C5: a single all-`yes` event exports to the spec-shaped
calendar text. -/
theorem export_ics_format_witness :
    exportICS [yesSchedule] =
      { state := [yesSchedule], alerts := [],
        file := some ("splatoon-schedule.ics",
          "BEGIN:VCALENDAR\nVERSION:2.0\n" ++
          String.intercalate "\n" ((confirmed [yesSchedule]).map (fun s =>
            String.intercalate "\n"
              ["BEGIN:VEVENT",
               "SUMMARY:" ++ s.title,
               "DTSTART:" ++ specStamp s.starts_at,
               "DTEND:" ++ specStamp (s.starts_at + 2 * 60 * 60 * 1000),
               "END:VEVENT"])) ++
          "\nEND:VCALENDAR") } :=
  export_ics_format [yesSchedule] (by decide)

end SplaSchedule
